import Mathlib

/-!
Verification of the FocusTube validation / sanitization / rate-limiting core.

The JavaScript source is shallowly embedded: JS strings become `List Char`
(written `Str`), JS numbers used as timestamps/sizes become `Int`/`Nat`, the
rate limiter's mutable `Map` becomes explicit state passing, and functions that
`throw` return `Option`.  The regular-expression denylists used by the source
are embedded as direct scanning functions implementing the semantics of the
concrete regexes appearing in the source (leftmost match, global non-overlapping
replacement, the stated character classes); each scanner is documented with the
regex it implements.  Character-level operations (`toLowerCase`, `trim`, `\w`,
`\s`) are modelled on their ASCII fragment, which is the fragment exercised by
every string the source compares against.
-/

abbrev Str := List Char

/-! ## Basic string utilities -/

/-- JS `String.prototype.toLowerCase`, ASCII fragment. -/
def toLowerStr (s : Str) : Str := s.map Char.toLower

/-- Case-sensitive "does `s` begin with `lit`" (JS `String.prototype.startsWith`). -/
def listStartsWith (lit s : Str) : Bool :=
  match lit, s with
  | [], _ => true
  | _ :: _, [] => false
  | l :: ls, c :: cs => (l = c) && listStartsWith ls cs

/-- Case-insensitive variant: `lit` is given lower-case and compared against
the lower-cased head of `s` (semantics of a `/lit/i` literal regex). -/
def startsWithCI (lit s : Str) : Bool :=
  match lit, s with
  | [], _ => true
  | _ :: _, [] => false
  | l :: ls, c :: cs => (l = c.toLower) && startsWithCI ls cs

/-- Case-sensitive substring test (JS `String.prototype.includes`). -/
def occursIn (pat : Str) : Str → Bool
  | [] => listStartsWith pat []
  | c :: rest => listStartsWith pat (c :: rest) || occursIn pat rest

/-- Case-insensitive substring test (a `/lit/gi.test`, `lit` a literal). -/
def occursInCI (pat : Str) : Str → Bool
  | [] => startsWithCI pat []
  | c :: rest => startsWithCI pat (c :: rest) || occursInCI pat rest

/-- JS whitespace as used by `trim` / `\s`, ASCII fragment. -/
def isJsSpace (c : Char) : Bool :=
  c = ' ' || c = '\t' || c = '\n' || c = '\r' || c = '\x0b' || c = '\x0c'

/-- JS `String.prototype.trim`, ASCII whitespace fragment. -/
def trimStr (s : Str) : Str :=
  ((s.dropWhile isJsSpace).reverse.dropWhile isJsSpace).reverse

/-- JS `\w` word character: `[A-Za-z0-9_]`. -/
def isWordChar (c : Char) : Bool := c.isAlphanum || c = '_'

/-! ## Global regex replacement / detection scanners

Each function implements one concrete regex of the source.  All JS
`replace(re, lit)` calls with a `g` flag scan the original string left to
right, removing non-overlapping matches and continuing after each match.
The fuel argument is always instantiated with the input length, which bounds
the number of scanning steps. -/

/-- One step of `replace(/lit/gi, empty)`: `lit` is a lower-case literal. -/
def removeLitFuel (lit : Str) : Nat → Str → Str
  | 0, s => s
  | _ + 1, [] => []
  | n + 1, c :: rest =>
    if startsWithCI lit (c :: rest) then
      removeLitFuel lit n (List.drop lit.length (c :: rest))
    else
      c :: removeLitFuel lit n rest

/-- JS `replace(/lit/gi, empty)` for a literal pattern `lit`. -/
def removeLitCI (lit s : Str) : Str := removeLitFuel lit s.length s

/-- Position after the first `>` of `s`, if any (the `[^>]*>` tail of the
tag regex `<[^>]*>`). -/
def afterGt : Str → Option Str
  | [] => none
  | c :: r => if c = '>' then some r else afterGt r

/-- JS `replace(/<[^>]*>/g, empty)`: strip HTML-tag-like substrings. -/
def removeTagsFuel : Nat → Str → Str
  | 0, s => s
  | _ + 1, [] => []
  | n + 1, c :: rest =>
    if c = '<' then
      match afterGt rest with
      | some r => removeTagsFuel n r
      | none => c :: removeTagsFuel n rest
    else c :: removeTagsFuel n rest

def removeTags (s : Str) : Str := removeTagsFuel s.length s

/-- Remainder after the first case-insensitive close tag of the named
element, if any.  The close tag is the literal of the form `</name>`. -/
def firstCloseAfter (name : Str) : Str → Option Str
  | [] => none
  | c :: rest =>
    if startsWithCI ('<' :: '/' :: (name ++ ['>'])) (c :: rest) then
      some (List.drop (name.length + 3) (c :: rest))
    else firstCloseAfter name rest

/-- Head match of a block regex of the shape used by the source, e.g.
`<script\b[^<]*(?:(?!<\/script>)<[^<]*)*<\/script>` (flags `gi`): an open tag
at the current position, a `\b` word boundary, then — because `[^<]*` and the
guarded group deterministically consume everything up to the first close tag —
arbitrary content up to the first `</name>`.  Returns the remainder after the
close tag. -/
def boundaryOk : Str → Bool
  | [] => true
  | c :: _ => !isWordChar c

def blockAt (name : Str) (s : Str) : Option Str :=
  match s with
  | [] => none
  | c0 :: rest =>
    if c0 = '<' && startsWithCI name rest then
      if boundaryOk (List.drop name.length rest) then
        firstCloseAfter name (List.drop name.length rest)
      else none
    else none

/-- JS `replace(blockRegex, empty)` with `g` flag. -/
def removeBlocksFuel (name : Str) : Nat → Str → Str
  | 0, s => s
  | _ + 1, [] => []
  | n + 1, c :: rest =>
    match blockAt name (c :: rest) with
    | some tail => removeBlocksFuel name n tail
    | none => c :: removeBlocksFuel name n rest

def removeBlocks (name s : Str) : Str := removeBlocksFuel name s.length s

/-- `.test` of a block regex: some position carries a full match. -/
def hasBlockCI (name : Str) : Str → Bool
  | [] => false
  | c :: rest => (blockAt name (c :: rest)).isSome || hasBlockCI name rest

/-- Head match of `/on\w+\s*=/i`: returns the remainder after the `=`.
The quantifiers are deterministic here: `\w+` must take the maximal word run
(stopping early leaves a word character where `\s*=` cannot match), and `\s*`
the maximal space run. -/
def eventHandlerAt (s : Str) : Option Str :=
  match s with
  | c1 :: c2 :: rest =>
    if c1.toLower = 'o' && c2.toLower = 'n' then
      if (rest.takeWhile isWordChar) = [] then none
      else
        match (rest.dropWhile isWordChar).dropWhile isJsSpace with
        | c :: tail => if c = '=' then some tail else none
        | [] => none
    else none
  | _ => none

/-- JS `replace(/on\w+\s*=/gi, empty)`. -/
def removeEvtFuel : Nat → Str → Str
  | 0, s => s
  | _ + 1, [] => []
  | n + 1, c :: rest =>
    match eventHandlerAt (c :: rest) with
    | some tail => removeEvtFuel n tail
    | none => c :: removeEvtFuel n rest

def removeEvt (s : Str) : Str := removeEvtFuel s.length s

/-- `.test` of `/on\w+\s*=/gi`. -/
def hasEvt : Str → Bool
  | [] => false
  | c :: rest => (eventHandlerAt (c :: rest)).isSome || hasEvt rest

/-! ## SecurityUtils.sanitizeInput -/

/-- The `type` argument of `SecurityUtils.sanitizeInput`; the source's
`default` switch arm coincides with the `text` arm. -/
inductive InputKind
  | url
  | text
  | filename
deriving DecidableEq

/-- `SecurityUtils.sanitizeInput(input, type)`.  Non-string input is excluded
by typing; the source returns the empty string on empty input, then trims and
applies the class's removal passes in source order. -/
def sanitizeInput (input : Str) (ty : InputKind) : Str :=
  if input = [] then []
  else
    let sanitized := trimStr input
    match ty with
    | .url =>
        removeEvt (removeBlocks ("script".data)
          (removeLitCI ("vbscript:".data)
            (removeLitCI ("data:".data)
              (removeLitCI ("javascript:".data) sanitized))))
    | .filename =>
        ((removeLitCI ("..".data) sanitized).filter
            (fun c => !(c = '<' || c = '>' || c = ':' || c = '\"' || c = '|' || c = '?' || c = '*'))).filter
          (fun c => !(c = '/' || c = '\\'))
    | .text =>
        removeEvt (removeLitCI ("javascript:".data) (removeTags sanitized))

/-! ## SecurityUtils.containsDangerousContent -/

/-- `SecurityUtils.containsDangerousContent(input)`: true when any of the
source's eight `dangerousPatterns` regexes matches (each pattern object is
rebuilt per call, so the `g` flag carries no `lastIndex` state).  Non-string
input is excluded by typing; empty input returns false. -/
def containsDangerousContent (input : Str) : Bool :=
  if input = [] then false
  else
    hasBlockCI ("script".data) input ||
    occursInCI ("javascript:".data) input ||
    occursInCI ("data:".data) input ||
    occursInCI ("vbscript:".data) input ||
    hasEvt input ||
    hasBlockCI ("iframe".data) input ||
    hasBlockCI ("object".data) input ||
    hasBlockCI ("embed".data) input

/-! ## SECURITY_CONFIG constants (appConstants.js) -/

def maxInputLength : Nat := 1000

def maxUrlLength : Nat := 2048

def blockedProtocols : List Str :=
  [("javascript:".data), ("data:".data), ("vbscript:".data), ("file:".data)]

def allowedDomains : List Str :=
  [("youtube.com".data), ("youtu.be".data), ("www.youtube.com".data), ("m.youtube.com".data)]

/-! ## Error message strings (as pushed by the source) -/

def inputRequiredMsg : Str := "Input is required".data

def tooLongMsg : Str :=
  "Input too long. Maximum ".data ++ ((Nat.repr maxInputLength).data ++ " characters allowed.".data)

def dangerousMsg : Str := "Input contains potentially dangerous content".data

def urlStartMsg : Str := "URL must start with http:// or https://".data

def invalidFilenameMsg : Str := "Invalid filename detected".data

def urlTooLongMsg : Str := "URL too long".data

def protocolMsg (p : Str) : Str := "Protocol ".data ++ (p ++ " is not allowed".data)

def domainMsg : Str := "Domain not allowed".data

def invalidUrlFormatMsg : Str := "Invalid URL format".data

/-! ## useSecurity.validateInput -/

structure ValidationResult where
  isValid : Bool
  sanitized : Str
  errors : List Str
deriving DecidableEq

/-- `validateInput(input, type)` from the `useSecurity` hook: missing input is
a lone error; otherwise the length check, the danger check and the
type-specific check on the sanitized value each push their error, in source
order, and `isValid` is set from emptiness of the accumulated list. -/
def validateInput (input : Str) (ty : InputKind) : ValidationResult :=
  if input = [] then ⟨false, [], [inputRequiredMsg]⟩
  else
    let e1 := if maxInputLength < input.length then [tooLongMsg] else []
    let e2 := if containsDangerousContent input then [dangerousMsg] else []
    let sanitized := sanitizeInput input ty
    let e3 :=
      match ty with
      | .url =>
          if !(listStartsWith ("http://".data) sanitized ||
               listStartsWith ("https://".data) sanitized) then [urlStartMsg] else []
      | .filename =>
          if occursIn ("..".data) sanitized || occursIn ("/".data) sanitized ||
             occursIn ("\\".data) sanitized then [invalidFilenameMsg] else []
      | .text => []
    let errors := e1 ++ (e2 ++ e3)
    ⟨errors.isEmpty, sanitized, errors⟩

/-! ## The `new URL` host model -/

structure UrlParts where
  scheme : Str
  host : Str
deriving DecidableEq

/-- Scheme characters after the first: `[A-Za-z0-9+\-.]`. -/
def isSchemeChar (c : Char) : Bool := c.isAlphanum || c = '+' || c = '-' || c = '.'

/-- Suffix after the last `@` (userinfo separator) of an authority. -/
def afterLastAt (s : Str) : Str := (s.reverse.takeWhile (fun c => c ≠ '@')).reverse

def specialSchemes : List Str :=
  [("http".data), ("https".data), ("ws".data), ("wss".data), ("ftp".data), ("file".data)]

/-- Modelled from the WHATWG URL Standard (the platform `new URL(...)`
constructor used by the source, which is not part of this repository),
restricted to scheme and hostname extraction for absolute URLs: an ASCII-alpha
initial scheme up to `:` (lower-cased); for special schemes any run of
slashes, then the authority up to a delimiter, with userinfo and port removed
and the host lower-cased — an empty host fails for special non-file schemes;
non-special schemes carry an opaque path and an empty hostname.  `none` models
the constructor throwing. -/
def parseURL (s : Str) : Option UrlParts :=
  let schemeRaw := s.takeWhile isSchemeChar
  match schemeRaw, s.dropWhile isSchemeChar with
  | c :: _, ':' :: r =>
    if c.isAlpha then
      let scheme := toLowerStr schemeRaw
      if scheme ∈ specialSchemes then
        let afterSlashes := r.dropWhile (fun c => c = '/' || c = '\\')
        let auth := afterSlashes.takeWhile
          (fun c => !(c = '/' || c = '\\' || c = '?' || c = '#'))
        let host := (afterLastAt auth).takeWhile (fun c => c ≠ ':')
        if host = [] && scheme ≠ ("file".data) then none
        else some ⟨scheme, toLowerStr host⟩
      else some ⟨scheme, []⟩
    else none
  | _, _ => none

/-! ## useSecurity.validateYouTubeUrl -/

/-- `validateYouTubeUrl(url)` from the `useSecurity` hook.  A failing
`validateInput` returns at once with exactly its errors (the `result.sanitized`
field keeps its empty initializer); otherwise the URL-length check, the
first-matching blocked-protocol check on the lower-cased raw URL, and the
hostname allow-list check (or parse-failure error) each push their error in
source order. -/
def validateYouTubeUrl (url : Str) : ValidationResult :=
  let iv := validateInput url .url
  if !iv.isValid then ⟨false, [], iv.errors⟩
  else
    let e1 := if maxUrlLength < url.length then [urlTooLongMsg] else []
    let e2 :=
      match blockedProtocols.find? (fun p => listStartsWith p (toLowerStr url)) with
      | some p => [protocolMsg p]
      | none => []
    let e3 :=
      match parseURL url with
      | some parts =>
          if allowedDomains.any (fun d => occursIn d (toLowerStr parts.host)) then []
          else [domainMsg]
      | none => [invalidUrlFormatMsg]
    let errors := e1 ++ (e2 ++ e3)
    ⟨errors.isEmpty, iv.sanitized, errors⟩

/-! ## VideoService.extractVideoId -/

/-- The `[^&\n?#]` character class of the capture groups. -/
def isStopChar (c : Char) : Bool := c = '&' || c = '\n' || c = '?' || c = '#'

/-- The `([^&\n?#]+)` capture: the maximal run of non-stop characters, failing
when empty (the `+` quantifier). -/
def capAfter (s : Str) : Option Str :=
  let run := s.takeWhile (fun c => !isStopChar c)
  if run = [] then none else some run

/-- One alternative of the first pattern at the current position: a literal
followed by the capture. -/
def tryAlt (lit : Str) (s : Str) : Option Str :=
  if listStartsWith lit s then capAfter (List.drop lit.length s) else none

/-- Head match of pattern 1,
`/(?:youtube\.com\/watch\?v=|youtu\.be\/|youtube\.com\/embed\/)([^&\n?#]+)/`,
alternatives in source order (at most one can apply at a given position). -/
def pat1At (s : Str) : Option Str :=
  match tryAlt ("youtube.com/watch?v=".data) s with
  | some cap => some cap
  | none =>
    match tryAlt ("youtu.be/".data) s with
    | some cap => some cap
    | none => tryAlt ("youtube.com/embed/".data) s

/-- Leftmost match of pattern 1 (`String.prototype.match` returns the first
match). -/
def scanPat1 : Str → Option Str
  | [] => none
  | c :: rest =>
    match pat1At (c :: rest) with
    | some cap => some cap
    | none => scanPat1 rest

/-- Leftmost match of pattern 2, `/youtube\.com\/v\/([^&\n?#]+)/`. -/
def scanPat2 : Str → Option Str
  | [] => none
  | c :: rest =>
    match tryAlt ("youtube.com/v/".data) (c :: rest) with
    | some cap => some cap
    | none => scanPat2 rest

/-- The `.*&v=([^&\n?#]+)` tail of pattern 3: the greedy `.*` (which cannot
cross a newline) backtracks to the rightmost `&v=` whose capture is
non-empty. -/
def findLastVEq : Str → Option Str
  | [] => none
  | c :: rest =>
    if c = '\n' then none
    else
      match findLastVEq rest with
      | some cap => some cap
      | none =>
        if listStartsWith ("&v=".data) (c :: rest) then
          capAfter (List.drop 3 (c :: rest))
        else none

/-- Leftmost match of pattern 3, `/youtube\.com\/watch\?.*&v=([^&\n?#]+)/`. -/
def scanPat3 : Str → Option Str
  | [] => none
  | c :: rest =>
    if listStartsWith ("youtube.com/watch?".data) (c :: rest) then
      match findLastVEq (List.drop 18 (c :: rest)) with
      | some cap => some cap
      | none => scanPat3 rest
    else scanPat3 rest

/-- The video-id alphabet `[a-zA-Z0-9_-]`. -/
def isIdChar (c : Char) : Bool := c.isAlphanum || c = '_' || c = '-'

/-- `match[1].length === 11` together with `/^[a-zA-Z0-9_-]{11}$/.test(match[1])`. -/
def validVideoId (v : Str) : Bool := v.length = 11 && v.all isIdChar

/-- The guard applied by the source to one pattern's capture; a failing guard
falls through to the next pattern. -/
def checkCap : Option Str → Option Str
  | none => none
  | some cap => if validVideoId cap then some cap else none

/-- `VideoService.extractVideoId(url)`: empty input and inputs containing one
of the three suspicious substrings (case-sensitive `includes`) yield `null`;
otherwise the three patterns are tried in order and the first whose capture
passes the 11-character guard wins. -/
def extractVideoId (url : Str) : Option Str :=
  if url = [] then none
  else if occursIn ("<script".data) url || occursIn ("javascript:".data) url ||
          occursIn ("data:".data) url then none
  else
    match checkCap (scanPat1 url) with
    | some v => some v
    | none =>
      match checkCap (scanPat2 url) with
      | some v => some v
      | none => checkCap (scanPat3 url)

/-! ## VideoService.isValidYouTubeUrl -/

/-- The `validDomains` literal local to `VideoService.isValidYouTubeUrl`. -/
def validDomains : List Str :=
  [("youtube.com".data), ("youtu.be".data), ("www.youtube.com".data), ("m.youtube.com".data)]

/-- `VideoService.isValidYouTubeUrl(url)`: empty input, over-long input and
unparsable URLs are rejected; a parsed URL is rejected when its protocol
starts with a dangerous scheme, and accepted exactly when its lower-cased
hostname contains one of the allow-listed domains. -/
def isValidYouTubeUrl (url : Str) : Bool :=
  if url = [] then false
  else if maxUrlLength < url.length then false
  else
    match parseURL url with
    | none => false
    | some parts =>
      if [("javascript:".data), ("data:".data), ("vbscript:".data)].any
          (fun p => listStartsWith p (toLowerStr (parts.scheme ++ [':']))) then false
      else
        validDomains.any (fun d => occursIn d (toLowerStr parts.host))

/-! ## VideoService.generateEmbedUrl -/

/-- Characters kept verbatim by the `application/x-www-form-urlencoded`
serializer used by `URLSearchParams.toString()`. -/
def formKeepChar (c : Char) : Bool :=
  c.isAlphanum || c = '*' || c = '-' || c = '.' || c = '_'

/-- UTF-8 bytes of a character (the serializer percent-encodes per byte). -/
def utf8Bytes (c : Char) : List Nat :=
  let n := c.toNat
  if n < 128 then [n]
  else if n < 2048 then [192 + n / 64, 128 + n % 64]
  else if n < 65536 then [224 + n / 4096, 128 + (n / 64) % 64, 128 + n % 64]
  else [240 + n / 262144, 128 + (n / 4096) % 64, 128 + (n / 64) % 64, 128 + n % 64]

def hexDigit (n : Nat) : Char :=
  if n < 10 then Char.ofNat ('0'.toNat + n) else Char.ofNat ('A'.toNat + (n - 10))

def percentByte (b : Nat) : Str := ['%', hexDigit (b / 16), hexDigit (b % 16)]

/-- `application/x-www-form-urlencoded` serialization of one value (modelled
from the URL Standard's serializer, the platform code behind
`URLSearchParams.toString()`). -/
def formEncode (s : Str) : Str :=
  s.flatMap (fun c =>
    if c = ' ' then ['+']
    else if formKeepChar c then [c]
    else (utf8Bytes c).flatMap percentByte)

/-- The serialized parameter list of `generateEmbedUrl`, in the insertion
order of the source's `URLSearchParams` literal; `origin` stands for
`window.location.origin`, the embedding application's own origin. -/
def embedQuery (origin : Str) : Str :=
  ("autoplay=1&rel=0&modestbranding=1&controls=1&showinfo=0&iv_load_policy=3&fs=0&disablekb=1&playsinline=1&origin=".data)
    ++ (formEncode origin
    ++ (("&enablejsapi=0&widget_referrer=".data) ++ formEncode origin))

/-- `VideoService.generateEmbedUrl(videoId)`; `none` models the two `throw`
sites (falsy or non-string id; id failing the 11-character pattern), and
`origin` is the ambient `window.location.origin`. -/
def generateEmbedUrl (videoId origin : Str) : Option Str :=
  if videoId = [] then none
  else if !validVideoId videoId then none
  else some (("https://www.youtube.com/embed/".data) ++ (videoId ++ ('?' :: embedQuery origin)))

/-! ## SecurityUtils rate limiter -/

def rateLimitWindow : Int := 60000

def maxRequestsPerWindow : Nat := 10

/-- The `requestCounts` map; identifiers absent from the JS map are modelled
by the empty history (the source installs `[]` on first access). -/
def RateState := Str → List Int

def initialRateState : RateState := fun _ => []

def rlUpdate (st : RateState) (id : Str) (v : List Int) : RateState :=
  fun x => if x = id then v else st x

/-- `SecurityUtils.isRateLimited(identifier)` with `Date.now()` passed
explicitly: survivors of the lazy eviction (`timestamp > windowStart`) are
stored back; at or above the ceiling the call reports limited without
recording, otherwise the current timestamp is appended and the call reports
allowed.  Returns (limited?, new state). -/
def isRateLimited (st : RateState) (id : Str) (now : Int) : Bool × RateState :=
  let windowStart := now - rateLimitWindow
  let valid := (st id).filter (fun t => windowStart < t)
  if maxRequestsPerWindow ≤ valid.length then
    (true, rlUpdate st id valid)
  else
    (false, rlUpdate st id (valid ++ [now]))

/-- A sequence of calls for one identifier, returning the reported
limited-flags in order and the final state. -/
def runCalls (st : RateState) (id : Str) : List Int → List Bool × RateState
  | [] => ([], st)
  | t :: ts =>
    let r := isRateLimited st id t
    let rest := runCalls r.2 id ts
    (r.1 :: rest.1, rest.2)

/-! ## SecurityUtils.validateFile -/

structure FileCandidate where
  size : Nat
  type : Str
  name : Str
deriving DecidableEq

structure FileResult where
  isValid : Bool
  errors : List Str
deriving DecidableEq

def oneMB : Nat := 1024 * 1024

/-- `Math.round(a / b)` for non-negative integers (exact in the float-safe
range used here): round half up. -/
def jsRoundDiv (a b : Nat) : Nat := (2 * a + b) / (2 * b)

def noFileMsg : Str := "No file provided".data

def sizeErrMsg (maxSize : Nat) : Str :=
  "File size exceeds maximum allowed size of ".data
    ++ ((Nat.repr (jsRoundDiv maxSize oneMB)).data ++ "MB".data)

def typeErrMsg (t : Str) : Str := "File type ".data ++ (t ++ " is not allowed".data)

def nameErrMsg : Str := "Invalid filename detected".data

/-- `SecurityUtils.validateFile(file, allowedTypes, maxSize)`: a missing file
is a lone error; otherwise the size, declared-type and name checks each push
their error without short-circuiting, and `isValid` is emptiness of the
accumulated list. -/
def validateFile (file : Option FileCandidate) (allowedTypes : List Str) (maxSize : Nat) :
    FileResult :=
  match file with
  | none => ⟨false, [noFileMsg]⟩
  | some f =>
    let e1 := if maxSize < f.size then [sizeErrMsg maxSize] else []
    let e2 :=
      if 0 < allowedTypes.length && !(allowedTypes.contains f.type) then [typeErrMsg f.type]
      else []
    let e3 :=
      if occursIn ("..".data) f.name || occursIn ("/".data) f.name ||
         occursIn ("\\".data) f.name then [nameErrMsg]
      else []
    let errors := e1 ++ (e2 ++ e3)
    ⟨errors.isEmpty, errors⟩

/-! ## Helper lemmas: removal passes never lengthen a string -/

theorem afterGt_length_le {l r : Str} (h : afterGt l = some r) : r.length ≤ l.length := by
  induction l with
  | nil => simp [afterGt] at h
  | cons c rest ih =>
    rw [afterGt] at h
    split at h
    · injection h with h
      subst h
      simp
    · exact le_trans (ih h) (by simp)

theorem firstCloseAfter_length_le {name l r : Str} (h : firstCloseAfter name l = some r) :
    r.length ≤ l.length := by
  induction l with
  | nil => simp [firstCloseAfter] at h
  | cons c rest ih =>
    rw [firstCloseAfter] at h
    split at h
    · injection h with h
      subst h
      simp [List.length_drop]
      omega
    · exact le_trans (ih h) (by simp)

theorem blockAt_length_le {name s t : Str} (h : blockAt name s = some t) :
    t.length ≤ s.length := by
  match s with
  | [] => simp [blockAt] at h
  | c :: rest =>
    rw [blockAt] at h
    split at h
    · split at h
      · have h1 := firstCloseAfter_length_le h
        have h2 : (List.drop name.length rest).length ≤ rest.length := by
          simp [List.length_drop]
        have hc : (c :: rest).length = rest.length + 1 := by simp
        omega
      · simp at h
    · simp at h

theorem dropWhile_length_le (p : Char → Bool) (l : Str) : (l.dropWhile p).length ≤ l.length := by
  induction l with
  | nil => simp
  | cons c rest ih =>
    rw [List.dropWhile]
    split
    · exact le_trans ih (by simp)
    · simp

theorem eventHandlerAt_length_le {s t : Str} (h : eventHandlerAt s = some t) :
    t.length ≤ s.length := by
  match s with
  | [] => simp [eventHandlerAt] at h
  | [c] => simp [eventHandlerAt] at h
  | c1 :: c2 :: rest =>
    rw [eventHandlerAt] at h
    split at h
    · split at h
      · simp at h
      · split at h
        · rename_i c0 tail heq
          split at h
          · injection h with h
            subst h
            have h1 : (List.dropWhile isJsSpace (List.dropWhile isWordChar rest)).length
                = tail.length + 1 := by rw [heq]; simp
            have h2 := dropWhile_length_le isJsSpace (List.dropWhile isWordChar rest)
            have h3 := dropWhile_length_le isWordChar rest
            simp only [List.length_cons]
            omega
          · simp at h
        · simp at h
    · simp at h

theorem removeLitFuel_length_le (lit : Str) (n : Nat) (s : Str) :
    (removeLitFuel lit n s).length ≤ s.length := by
  induction n generalizing s with
  | zero => simp [removeLitFuel]
  | succ n ih =>
    cases s with
    | nil => simp [removeLitFuel]
    | cons c rest =>
      rw [removeLitFuel]
      split
      · exact le_trans (ih _) (by simp [List.length_drop])
      · simpa using ih rest

theorem removeTagsFuel_length_le (n : Nat) (s : Str) :
    (removeTagsFuel n s).length ≤ s.length := by
  induction n generalizing s with
  | zero => simp [removeTagsFuel]
  | succ n ih =>
    match s with
    | [] => simp [removeTagsFuel]
    | c :: rest =>
      rw [removeTagsFuel]
      split
      · split
        · rename_i r heq
          have := afterGt_length_le heq
          have := ih r
          simp only [List.length_cons]
          omega
        · simpa using ih rest
      · simpa using ih rest

theorem removeBlocksFuel_length_le (name : Str) (n : Nat) (s : Str) :
    (removeBlocksFuel name n s).length ≤ s.length := by
  induction n generalizing s with
  | zero => simp [removeBlocksFuel]
  | succ n ih =>
    cases s with
    | nil => simp [removeBlocksFuel]
    | cons c rest =>
      rw [removeBlocksFuel]
      split
      · rename_i tail heq
        have := blockAt_length_le heq
        exact le_trans (ih tail) this
      · simpa using ih rest

theorem removeEvtFuel_length_le (n : Nat) (s : Str) :
    (removeEvtFuel n s).length ≤ s.length := by
  induction n generalizing s with
  | zero => simp [removeEvtFuel]
  | succ n ih =>
    cases s with
    | nil => simp [removeEvtFuel]
    | cons c rest =>
      rw [removeEvtFuel]
      split
      · rename_i tail heq
        have := eventHandlerAt_length_le heq
        exact le_trans (ih tail) this
      · simpa using ih rest

theorem trimStr_length_le (s : Str) : (trimStr s).length ≤ s.length := by
  unfold trimStr
  have h1 := dropWhile_length_le isJsSpace s
  have h2 := dropWhile_length_le isJsSpace (s.dropWhile isJsSpace).reverse
  simp only [List.length_reverse] at h2 ⊢
  omega

theorem sanitizeInput_length_le (x : Str) (k : InputKind) :
    (sanitizeInput x k).length ≤ x.length := by
  unfold sanitizeInput
  split
  · simp
  · have htrim := trimStr_length_le x
    cases k with
    | url =>
      simp only
      refine le_trans (removeEvtFuel_length_le _ _) ?_
      refine le_trans (removeBlocksFuel_length_le _ _ _) ?_
      refine le_trans (removeLitFuel_length_le _ _ _) ?_
      refine le_trans (removeLitFuel_length_le _ _ _) ?_
      exact le_trans (removeLitFuel_length_le _ _ _) htrim
    | filename =>
      simp only
      refine le_trans (List.length_filter_le _ _) ?_
      refine le_trans (List.length_filter_le _ _) ?_
      exact le_trans (removeLitFuel_length_le _ _ _) htrim
    | text =>
      simp only
      refine le_trans (removeEvtFuel_length_le _ _) ?_
      refine le_trans (removeLitFuel_length_le _ _ _) ?_
      exact le_trans (removeTagsFuel_length_le _ _) htrim

/-! ## Claim C2: sanitization idempotence -/

/-- Claim C2 counterexample: sanitization is not idempotent.  A single global
removal pass concatenates the fragments around a removed `javascript:` token
into a new `javascript:` token, which a second pass then removes:
`sanitizeInput("javajavascript:script:", text)` is `"javascript:"`, but
sanitizing that once more yields the empty string. -/
theorem sanitize_not_idempotent_cex :
    sanitizeInput (sanitizeInput ("javajavascript:script:".data) InputKind.text)
        InputKind.text
      ≠ sanitizeInput ("javajavascript:script:".data) InputKind.text := by
  decide

/-- Claim C2 (amended): sanitization is not idempotent in general — a second
pass can remove tokens reassembled by the first pass's global removals — but a
second pass never grows the value: for every input `x` and every class `k`,
`sanitizeInput (sanitizeInput x k) k` is at most as long as
`sanitizeInput x k` (each pass only deletes characters). -/
theorem sanitize_second_pass_length_le (x : Str) (k : InputKind) :
    (sanitizeInput (sanitizeInput x k) k).length ≤ (sanitizeInput x k).length :=
  sanitizeInput_length_le (sanitizeInput x k) k

/-! ## Rate limiter helper lemmas -/

theorem isRateLimited_limited (st : RateState) (id : Str) (now : Int)
    (h : maxRequestsPerWindow ≤ ((st id).filter (fun t => now - rateLimitWindow < t)).length) :
    isRateLimited st id now =
      (true, rlUpdate st id ((st id).filter (fun t => now - rateLimitWindow < t))) := by
  unfold isRateLimited
  rw [if_pos h]

theorem isRateLimited_allowed (st : RateState) (id : Str) (now : Int)
    (h : ¬ maxRequestsPerWindow ≤ ((st id).filter (fun t => now - rateLimitWindow < t)).length) :
    isRateLimited st id now =
      (false, rlUpdate st id (((st id).filter (fun t => now - rateLimitWindow < t)) ++ [now])) := by
  unfold isRateLimited
  rw [if_neg h]

theorem rlUpdate_same (st : RateState) (id : Str) (v : List Int) : rlUpdate st id v id = v := by
  unfold rlUpdate
  rw [if_pos rfl]

/-! ## Claim C9: rate-limiter frame effect -/

/-- Claim C9: a rate-limit call updates only the called identifier's history;
a limited call stores exactly the surviving (non-expired) entries with the new
attempt not appended, and an allowed call stores the survivors with exactly
the current timestamp appended. -/
theorem rate_limit_frame (st : RateState) (id : Str) (now : Int) (id2 : Str) :
    (isRateLimited st id now).2 id2 =
      if id2 = id then
        ((st id).filter (fun t => now - rateLimitWindow < t))
          ++ (if (isRateLimited st id now).1 then [] else [now])
      else st id2 := by
  by_cases h : maxRequestsPerWindow ≤ ((st id).filter (fun t => now - rateLimitWindow < t)).length
  · rw [isRateLimited_limited st id now h]
    unfold rlUpdate
    by_cases h2 : id2 = id <;> simp [h2]
  · rw [isRateLimited_allowed st id now h]
    unfold rlUpdate
    by_cases h2 : id2 = id <;> simp [h2]

/-! ## Claim C10: rate-limiter state invariant -/

/-- Claim C10: lazy eviction on every access keeps the per-identifier history
bounded: if an identifier's stored history has length at most
`maxRequestsPerWindow` before a call, then after the call it still does, and
every stored timestamp is strictly newer than the call's `now` minus
`rateLimitWindow`. -/
theorem rate_limit_invariant (st : RateState) (id : Str) (now : Int)
    (h : (st id).length ≤ maxRequestsPerWindow) :
    (((isRateLimited st id now).2 id).length ≤ maxRequestsPerWindow) ∧
      (∀ t ∈ (isRateLimited st id now).2 id, now - rateLimitWindow < t) := by
  have hfl : ((st id).filter (fun t => now - rateLimitWindow < t)).length ≤ (st id).length :=
    List.length_filter_le _ _
  have hmem : ∀ t ∈ (st id).filter (fun t => now - rateLimitWindow < t),
      now - rateLimitWindow < t := by
    intro t ht
    have := List.of_mem_filter ht
    exact of_decide_eq_true this
  by_cases hc : maxRequestsPerWindow ≤ ((st id).filter (fun t => now - rateLimitWindow < t)).length
  · rw [isRateLimited_limited st id now hc]
    simp only [rlUpdate_same]
    exact ⟨le_trans hfl h, hmem⟩
  · rw [isRateLimited_allowed st id now hc]
    simp only [rlUpdate_same]
    constructor
    · simp only [List.length_append, List.length_cons, List.length_nil]
      omega
    · intro t ht
      rcases List.mem_append.mp ht with ht | ht
      · exact hmem t ht
      · have : t = now := List.mem_singleton.mp ht
        subst this
        have : (0 : Int) < rateLimitWindow := by decide
        omega

/-- Claim C10 witness: the invariant applied to the empty initial history. -/
theorem rate_limit_invariant_witness :
    (((isRateLimited initialRateState ("user".data) 100000).2 ("user".data)).length
        ≤ maxRequestsPerWindow) ∧
      (∀ t ∈ (isRateLimited initialRateState ("user".data) 100000).2 ("user".data),
        (100000 : Int) - rateLimitWindow < t) :=
  rate_limit_invariant initialRateState ("user".data) 100000 (by decide)

/-! ## Claim C7: the embed builder's defensive guard -/

/-- Claim C7: `generateEmbedUrl` succeeds exactly on arguments matching the
11-character identifier pattern `[a-zA-Z0-9_-]{11}` (empty arguments fail both
the falsiness guard and the pattern; non-string arguments are excluded by
typing), and returns a URL string in exactly those cases, for any ambient
origin. -/
theorem generate_embed_url_guard (videoId origin : Str) :
    (generateEmbedUrl videoId origin).isSome = validVideoId videoId := by
  unfold generateEmbedUrl
  by_cases h0 : videoId = []
  · subst h0
    simp [validVideoId]
  · simp only [h0, if_false]
    by_cases hv : validVideoId videoId
    · simp [hv]
    · simp [hv]

/-! ## Claim C3: sliding-window limit and reset -/

theorem runCalls_no_evict (id : Str) (now : Int) :
    ∀ (ts : List Int) (st : RateState),
      (∀ t ∈ ts, now - rateLimitWindow < t ∧ t ≤ now) →
      (∀ x ∈ st id, now - rateLimitWindow < x) →
      (st id).length + ts.length ≤ maxRequestsPerWindow →
      (runCalls st id ts).1 = List.replicate ts.length false ∧
        (runCalls st id ts).2 id = st id ++ ts := by
  intro ts
  induction ts with
  | nil =>
    intro st _ _ _
    exact ⟨rfl, by simp [runCalls]⟩
  | cons t ts ih =>
    intro st hin hst hlen
    have htw : now - rateLimitWindow < t ∧ t ≤ now := hin t (List.mem_cons_self t ts)
    have hfilter : (st id).filter (fun x => t - rateLimitWindow < x) = st id := by
      rw [List.filter_eq_self]
      intro x hx
      have h1 := hst x hx
      have h2 : t - rateLimitWindow ≤ now - rateLimitWindow := by omega
      exact decide_eq_true (by omega)
    have hnotlim : ¬ maxRequestsPerWindow ≤
        ((st id).filter (fun x => t - rateLimitWindow < x)).length := by
      rw [hfilter]
      simp only [List.length_cons] at hlen
      omega
    have hstep := isRateLimited_allowed st id t hnotlim
    have hst' : (rlUpdate st id (((st id).filter (fun x => t - rateLimitWindow < x)) ++ [t])) id
        = st id ++ [t] := by
      rw [rlUpdate_same, hfilter]
    have ihres := ih (rlUpdate st id (((st id).filter (fun x => t - rateLimitWindow < x)) ++ [t]))
      (fun t' ht' => hin t' (List.mem_cons_of_mem t ht'))
      (by
        rw [hst']
        intro x hx
        rcases List.mem_append.mp hx with hx | hx
        · exact hst x hx
        · have : x = t := List.mem_singleton.mp hx
          subst this
          exact htw.1)
      (by
        rw [hst']
        simp only [List.length_append, List.length_cons, List.length_nil] at hlen ⊢
        omega)
    refine ⟨?_, ?_⟩
    · show (runCalls st id (t :: ts)).1 = _
      unfold runCalls
      rw [hstep]
      simp only [List.replicate_succ]
      exact congrArg (false :: ·) ihres.1
    · show (runCalls st id (t :: ts)).2 id = _
      unfold runCalls
      rw [hstep]
      rw [ihres.2, hst']
      simp

/-- Claim C3: starting from an empty history for an identifier, a run of
exactly `maxRequestsPerWindow` calls whose timestamps all lie strictly inside
the window ending at `now` is entirely accepted; the next call at `now`
(still inside that window) is reported limited; and once the window has fully
elapsed — every recorded timestamp at or before `now2 - rateLimitWindow` — a
new call at `now2` is reported allowed again. -/
theorem rate_limit_window_c3 (id : Str) (st0 : RateState) (ts : List Int) (now now2 : Int)
    (h0 : st0 id = [])
    (hlen : ts.length = maxRequestsPerWindow)
    (hin : ∀ t ∈ ts, now - rateLimitWindow < t ∧ t ≤ now)
    (helapsed : ∀ t ∈ ts, t ≤ now2 - rateLimitWindow) :
    (runCalls st0 id ts).1 = List.replicate maxRequestsPerWindow false ∧
      (isRateLimited (runCalls st0 id ts).2 id now).1 = true ∧
      (isRateLimited (isRateLimited (runCalls st0 id ts).2 id now).2 id now2).1 = false := by
  obtain ⟨hflags, hstate⟩ := runCalls_no_evict id now ts st0 hin
    (by rw [h0]; intro x hx; simp at hx)
    (by rw [h0]; simp [hlen])
  have hstate' : (runCalls st0 id ts).2 id = ts := by rw [hstate, h0]; simp
  have hfilterA : ts.filter (fun x => now - rateLimitWindow < x) = ts := by
    rw [List.filter_eq_self]
    intro x hx
    exact decide_eq_true (hin x hx).1
  have hlim : maxRequestsPerWindow ≤
      (((runCalls st0 id ts).2 id).filter (fun x => now - rateLimitWindow < x)).length := by
    rw [hstate', hfilterA, hlen]
  have hstepA := isRateLimited_limited (runCalls st0 id ts).2 id now hlim
  have hstateB : (isRateLimited (runCalls st0 id ts).2 id now).2 id = ts := by
    rw [hstepA]
    simp only [rlUpdate_same]
    rw [hstate', hfilterA]
  have hfilterB : ts.filter (fun x => now2 - rateLimitWindow < x) = [] := by
    rw [List.filter_eq_nil_iff]
    intro x hx
    have := helapsed x hx
    simp only [decide_eq_true_eq]
    omega
  have hnotlimB : ¬ maxRequestsPerWindow ≤
      (((isRateLimited (runCalls st0 id ts).2 id now).2 id).filter
        (fun x => now2 - rateLimitWindow < x)).length := by
    rw [hstateB, hfilterB]
    simp [maxRequestsPerWindow]
  refine ⟨by rw [hflags, hlen], ?_, ?_⟩
  · rw [hstepA]
  · rw [isRateLimited_allowed _ id now2 hnotlimB]

/-- Claim C3 witness: ten accepted calls at times 0..9 from a fresh
identifier, an 11th call at time 9 reported limited, and a later call at time
60010 (window fully elapsed) reported allowed. -/
theorem rate_limit_window_c3_witness :
    (runCalls initialRateState ("user".data) [0, 1, 2, 3, 4, 5, 6, 7, 8, 9]).1
        = List.replicate maxRequestsPerWindow false ∧
      (isRateLimited (runCalls initialRateState ("user".data)
        [0, 1, 2, 3, 4, 5, 6, 7, 8, 9]).2 ("user".data) 9).1 = true ∧
      (isRateLimited (isRateLimited (runCalls initialRateState ("user".data)
        [0, 1, 2, 3, 4, 5, 6, 7, 8, 9]).2 ("user".data) 9).2 ("user".data) 60010).1 = false :=
  rate_limit_window_c3 ("user".data) initialRateState [0, 1, 2, 3, 4, 5, 6, 7, 8, 9] 9 60010
    rfl (by decide) (by decide) (by decide)

/-! ## Claim C4: extractVideoId returns only validated 11-character ids -/

theorem checkCap_valid {o : Option Str} {v : Str} (h : checkCap o = some v) :
    validVideoId v = true := by
  match o with
  | none => simp [checkCap] at h
  | some cap =>
    rw [checkCap] at h
    split at h
    · injection h with h
      subst h
      assumption
    · simp at h

/-- Claim C4: `extractVideoId` returns a value only when the capture obtained
from its URL patterns has length exactly 11 and consists solely of
`[a-zA-Z0-9_-]` characters; every other input — no match, wrong length, or
invalid character set — yields `none`, never a truncated or coerced
identifier; in particular the 5-character capture of
`"https://youtube.com/watch?v=short"` yields `none`. -/
theorem extract_reference_c4 :
    (∀ (url v : Str), extractVideoId url = some v →
        v.length = 11 ∧ v.all isIdChar = true) ∧
      extractVideoId ("https://youtube.com/watch?v=short".data) = none := by
  constructor
  · intro url v h
    have hv : validVideoId v = true := by
      unfold extractVideoId at h
      split at h
      · exact absurd h (by simp)
      · split at h
        · exact absurd h (by simp)
        · split at h
          · rename_i v1 heq1
            injection h with h
            subst h
            exact checkCap_valid heq1
          · split at h
            · rename_i v2 heq2
              injection h with h
              subst h
              exact checkCap_valid heq2
            · exact checkCap_valid h
    unfold validVideoId at hv
    simp only [Bool.and_eq_true, decide_eq_true_eq] at hv
    exact hv
  · decide

/-- Claim C4 witness: a canonical watch URL extracts its 11-character id,
which passes the length and alphabet checks. -/
theorem extract_reference_c4_witness :
    ("dQw4w9WgXcQ".data).length = 11 ∧ ("dQw4w9WgXcQ".data).all isIdChar = true :=
  extract_reference_c4.1 ("https://www.youtube.com/watch?v=dQw4w9WgXcQ".data)
    ("dQw4w9WgXcQ".data) (by decide)

/-! ## Claim C5: hostname-based domain check -/

/-- Claim C5: `isValidYouTubeUrl` checks the domain allow-list against the
parsed URL's lower-cased hostname, not against the whole URL string:
`"https://evil.com/youtube.com"` is rejected even though the full URL contains
an allow-listed domain in its path, and any accepted URL parses to a hostname
that itself contains an allow-listed domain. -/
theorem hostname_allow_list_c5 :
    isValidYouTubeUrl ("https://evil.com/youtube.com".data) = false ∧
      ∀ url, isValidYouTubeUrl url = true →
        ∃ parts, parseURL url = some parts ∧
          validDomains.any (fun d => occursIn d (toLowerStr parts.host)) = true := by
  constructor
  · decide
  · intro url h
    unfold isValidYouTubeUrl at h
    split at h
    · exact absurd h (by simp)
    · split at h
      · exact absurd h (by simp)
      · split at h
        · exact absurd h (by simp)
        · rename_i parts heq
          split at h
          · exact absurd h (by simp)
          · exact ⟨parts, heq, h⟩

/-- Claim C5 witness: a canonical watch URL is accepted, and its parsed
hostname contains an allow-listed domain. -/
theorem hostname_allow_list_c5_witness :
    ∃ parts, parseURL ("https://www.youtube.com/watch?v=dQw4w9WgXcQ".data) = some parts ∧
      validDomains.any (fun d => occursIn d (toLowerStr parts.host)) = true :=
  hostname_allow_list_c5.2 ("https://www.youtube.com/watch?v=dQw4w9WgXcQ".data) (by decide)

/-! ## Claim C6: the embed URL is a fixed template around the reference -/

theorem listStartsWith_append {pat s : Str} (t : Str) (h : listStartsWith pat s = true) :
    listStartsWith pat (s ++ t) = true := by
  induction pat generalizing s with
  | nil => rfl
  | cons l ls ih =>
    cases s with
    | nil => simp [listStartsWith] at h
    | cons c cs =>
      show listStartsWith (l :: ls) (c :: (cs ++ t)) = true
      simp only [listStartsWith, Bool.and_eq_true] at h ⊢
      exact ⟨h.1, ih h.2⟩

theorem occursIn_nil_pat (t : Str) : occursIn [] t = true := by
  cases t <;> rfl

theorem occursIn_append_left {pat s : Str} (t : Str) (h : occursIn pat s = true) :
    occursIn pat (s ++ t) = true := by
  induction s with
  | nil =>
    have : pat = [] := by
      cases pat with
      | nil => rfl
      | cons p ps => simp [occursIn, listStartsWith] at h
    subst this
    exact occursIn_nil_pat t
  | cons c rest ih =>
    rw [occursIn] at h
    rcases Bool.or_eq_true_iff.mp h with h | h
    · show occursIn pat (c :: (rest ++ t)) = true
      rw [occursIn]
      exact Bool.or_eq_true_iff.mpr (Or.inl (listStartsWith_append t h))
    · show occursIn pat (c :: (rest ++ t)) = true
      rw [occursIn]
      exact Bool.or_eq_true_iff.mpr (Or.inr (ih h))

theorem occursIn_append_right {pat t : Str} (s : Str) (h : occursIn pat t = true) :
    occursIn pat (s ++ t) = true := by
  induction s with
  | nil => exact h
  | cons c rest ih =>
    show occursIn pat (c :: (rest ++ t)) = true
    rw [occursIn]
    exact Bool.or_eq_true_iff.mpr (Or.inr ih)

/-- Claim C6: for every reference matching the 11-character pattern and any
ambient application origin, the embed URL is exactly the fixed endpoint
followed by the reference and the fixed, closed query-parameter list (the
origin parameters are pinned to the application's own origin, not supplied by
the caller), and it always contains the substring `enablejsapi=0`. -/
theorem embed_url_fixed_c6 (ref origin : Str) (h : validVideoId ref = true) :
    generateEmbedUrl ref origin =
        some (("https://www.youtube.com/embed/".data) ++ (ref ++ ('?' :: embedQuery origin))) ∧
      occursIn ("enablejsapi=0".data)
        (("https://www.youtube.com/embed/".data) ++ (ref ++ ('?' :: embedQuery origin)))
        = true := by
  have hne : ref ≠ [] := by
    intro he
    subst he
    simp [validVideoId] at h
  constructor
  · unfold generateEmbedUrl
    rw [if_neg hne, h]
    simp
  · refine occursIn_append_right _ (occursIn_append_right _ ?_)
    show occursIn ("enablejsapi=0".data) (['?'] ++ embedQuery origin) = true
    refine occursIn_append_right _ ?_
    unfold embedQuery
    refine occursIn_append_right _ (occursIn_append_right _ ?_)
    exact occursIn_append_left _ (by decide)

/-- Claim C6 witness: the embed URL for a concrete valid reference and a
concrete application origin. -/
theorem embed_url_fixed_c6_witness :
    generateEmbedUrl ("dQw4w9WgXcQ".data) ("https://app.example".data) =
        some (("https://www.youtube.com/embed/".data)
          ++ (("dQw4w9WgXcQ".data) ++ ('?' :: embedQuery ("https://app.example".data)))) ∧
      occursIn ("enablejsapi=0".data)
        (("https://www.youtube.com/embed/".data)
          ++ (("dQw4w9WgXcQ".data) ++ ('?' :: embedQuery ("https://app.example".data))))
        = true :=
  embed_url_fixed_c6 ("dQw4w9WgXcQ".data) ("https://app.example".data) (by decide)

/-! ## Claim C8: file validation accumulates all violations -/

theorem sizeMsg_ne_typeMsg (ms : Nat) (t : Str) : sizeErrMsg ms ≠ typeErrMsg t := by
  intro h
  have h5 := congrArg (fun l => l[5]?) h
  simp only [sizeErrMsg, typeErrMsg] at h5
  rw [List.getElem?_append, List.getElem?_append] at h5
  simp at h5

theorem sizeMsg_ne_nameMsg (ms : Nat) : sizeErrMsg ms ≠ nameErrMsg := by
  intro h
  have h5 := congrArg (fun l => l[5]?) h
  simp only [sizeErrMsg, nameErrMsg] at h5
  rw [List.getElem?_append] at h5
  simp at h5

theorem typeMsg_ne_nameMsg (t : Str) : typeErrMsg t ≠ nameErrMsg := by
  intro h
  have h5 := congrArg (fun l => l[5]?) h
  simp only [typeErrMsg, nameErrMsg] at h5
  rw [List.getElem?_append] at h5
  simp at h5

/-- Claim C8: a missing file candidate yields exactly one missing-file error
with no further checks; for a present candidate all three checks (size,
declared MIME type against a non-empty allow-list, name containing a path
traversal or separator) are evaluated and each violation appears in the error
list independently of the others; and `isValid` holds exactly when the error
list is empty. -/
theorem validate_file_c8 :
    (∀ (ats : List Str) (ms : Nat),
        validateFile none ats ms = ⟨false, [noFileMsg]⟩) ∧
      (∀ (f : FileCandidate) (ats : List Str) (ms : Nat),
        ((sizeErrMsg ms ∈ (validateFile (some f) ats ms).errors) ↔ ms < f.size) ∧
        ((typeErrMsg f.type ∈ (validateFile (some f) ats ms).errors) ↔
          (0 < ats.length ∧ f.type ∉ ats)) ∧
        ((nameErrMsg ∈ (validateFile (some f) ats ms).errors) ↔
          (occursIn ("..".data) f.name || occursIn ("/".data) f.name ||
            occursIn ("\\".data) f.name) = true) ∧
        ((validateFile (some f) ats ms).isValid = true ↔
          (validateFile (some f) ats ms).errors = [])) := by
  constructor
  · intro ats ms
    rfl
  · intro f ats ms
    by_cases h1 : ms < f.size <;>
      by_cases h2 : (0 < ats.length && !(ats.contains f.type)) = true <;>
        by_cases h3 : (occursIn ("..".data) f.name || occursIn ("/".data) f.name ||
          occursIn ("\\".data) f.name) = true <;>
      simp [validateFile, h1, h2, h3, sizeMsg_ne_typeMsg, sizeMsg_ne_nameMsg, typeMsg_ne_nameMsg,
        (sizeMsg_ne_typeMsg ms f.type).symm, (sizeMsg_ne_nameMsg ms).symm,
        (typeMsg_ne_nameMsg f.type).symm]

/-! ## Claim C1: error accumulation in validateYouTubeUrl -/

/-- Claim C1 counterexample: for `"javascript:alert(1)"` the step-2/3 stage
(`validateInput`) reports its two errors and `validateYouTubeUrl` returns them
at once — even though the blocked-protocol check of step 4 would also fire on
this input (the lower-cased URL starts with `javascript:`), its error is
absent from the returned sequence, refuting the claim that every error from
steps 2–6 is accumulated. -/
theorem facade_short_circuit_cex :
    validateYouTubeUrl ("javascript:alert(1)".data) =
        ⟨false, [], [dangerousMsg, urlStartMsg]⟩ ∧
      listStartsWith ("javascript:".data) (toLowerStr ("javascript:alert(1)".data)) = true ∧
      protocolMsg ("javascript:".data) ∉
        (validateYouTubeUrl ("javascript:alert(1)".data)).errors := by
  decide

theorem protoMsg_ne_lenMsg (p : Str) : protocolMsg p ≠ urlTooLongMsg := by
  intro h
  have h0 := congrArg (fun l => l[0]?) h
  simp only [protocolMsg, urlTooLongMsg] at h0
  rw [List.getElem?_append] at h0
  simp at h0

theorem protoMsg_ne_domainMsg (p : Str) : protocolMsg p ≠ domainMsg := by
  intro h
  have h0 := congrArg (fun l => l[0]?) h
  simp only [protocolMsg, domainMsg] at h0
  rw [List.getElem?_append] at h0
  simp at h0

theorem protoMsg_ne_invalidMsg (p : Str) : protocolMsg p ≠ invalidUrlFormatMsg := by
  intro h
  have h0 := congrArg (fun l => l[0]?) h
  simp only [protocolMsg, invalidUrlFormatMsg] at h0
  rw [List.getElem?_append] at h0
  simp at h0

/-- Claim C1 (amended): `validateYouTubeUrl` performs no rate-limit check, and
errors do not accumulate across its two stages: whenever `validateInput`
reports any error (missing input, over-length, dangerous content, or the
sanitized value not starting with an http(s) scheme), the call returns exactly
those errors and the later checks contribute nothing.  Only when
`validateInput` succeeds are the three later checks all evaluated, and then
their errors accumulate: the URL-length error appears iff the URL is over
long, the blocked-protocol error appears exactly for the first matching
blocked protocol, the parse-failure error appears iff the URL does not parse,
and the domain error appears iff the URL parses to a hostname containing no
allow-listed domain. -/
theorem facade_error_accumulation_c1 (url : Str) :
    ((validateInput url InputKind.url).isValid = false →
        validateYouTubeUrl url = ⟨false, [], (validateInput url InputKind.url).errors⟩) ∧
      ((validateInput url InputKind.url).isValid = true →
        ((urlTooLongMsg ∈ (validateYouTubeUrl url).errors ↔ maxUrlLength < url.length) ∧
          (∀ p, blockedProtocols.find? (fun q => listStartsWith q (toLowerStr url)) = some p →
            protocolMsg p ∈ (validateYouTubeUrl url).errors) ∧
          (blockedProtocols.find? (fun q => listStartsWith q (toLowerStr url)) = none →
            ∀ p, protocolMsg p ∉ (validateYouTubeUrl url).errors) ∧
          (invalidUrlFormatMsg ∈ (validateYouTubeUrl url).errors ↔ parseURL url = none) ∧
          (domainMsg ∈ (validateYouTubeUrl url).errors ↔
            (∃ parts, parseURL url = some parts ∧
              allowedDomains.any (fun d => occursIn d (toLowerStr parts.host)) = false)))) := by
  have hUD : urlTooLongMsg ≠ domainMsg := by decide
  have hUI : urlTooLongMsg ≠ invalidUrlFormatMsg := by decide
  have hDI : domainMsg ≠ invalidUrlFormatMsg := by decide
  constructor
  · intro h
    simp only [validateYouTubeUrl, h, Bool.not_false, if_true]
  · intro h
    have herr : (validateYouTubeUrl url).errors
        = (if maxUrlLength < url.length then [urlTooLongMsg] else [])
          ++ ((match blockedProtocols.find? (fun p => listStartsWith p (toLowerStr url)) with
              | some p => [protocolMsg p]
              | none => [])
            ++ (match parseURL url with
              | some parts =>
                  if allowedDomains.any (fun d => occursIn d (toLowerStr parts.host)) then []
                  else [domainMsg]
              | none => [invalidUrlFormatMsg])) := by
      simp only [validateYouTubeUrl, h, Bool.not_true, Bool.false_eq_true, if_false]
    have hsplit : ∀ x, x ∈ (validateYouTubeUrl url).errors →
        (x = urlTooLongMsg ∧ maxUrlLength < url.length) ∨
          (∃ p, x = protocolMsg p ∧
            blockedProtocols.find? (fun q => listStartsWith q (toLowerStr url)) = some p) ∨
          (x = invalidUrlFormatMsg ∧ parseURL url = none) ∨
          (x = domainMsg ∧ ∃ parts, parseURL url = some parts ∧
            allowedDomains.any (fun d => occursIn d (toLowerStr parts.host)) = false) := by
      rw [herr]
      intro x hx
      rcases List.mem_append.mp hx with hm | hm
      · left
        revert hm
        by_cases hlen : maxUrlLength < url.length
        · rw [if_pos hlen]
          intro hm
          exact ⟨List.mem_singleton.mp hm, hlen⟩
        · rw [if_neg hlen]
          intro hm
          simp at hm
      · rcases List.mem_append.mp hm with hm | hm
        · right
          left
          revert hm
          cases hfind : blockedProtocols.find? (fun q => listStartsWith q (toLowerStr url)) with
          | none =>
            intro hm
            simp at hm
          | some p =>
            intro hm
            exact ⟨p, List.mem_singleton.mp hm, rfl⟩
        · right
          right
          revert hm
          cases hparse : parseURL url with
          | none =>
            intro hm
            exact Or.inl ⟨List.mem_singleton.mp hm, rfl⟩
          | some parts =>
            dsimp only
            by_cases hdom : (allowedDomains.any fun d => occursIn d (toLowerStr parts.host)) = true
            · rw [if_pos hdom]
              intro hm
              simp at hm
            · rw [if_neg hdom]
              intro hm
              simp only [Bool.not_eq_true] at hdom
              exact Or.inr ⟨List.mem_singleton.mp hm, parts, rfl, hdom⟩
    have hi1 : maxUrlLength < url.length → urlTooLongMsg ∈ (validateYouTubeUrl url).errors := by
      intro hlen
      rw [herr, if_pos hlen]
      exact List.mem_append.mpr (Or.inl (by simp))
    have hi2 : ∀ p, blockedProtocols.find? (fun q => listStartsWith q (toLowerStr url)) = some p →
        protocolMsg p ∈ (validateYouTubeUrl url).errors := by
      intro p hf
      rw [herr]
      refine List.mem_append.mpr (Or.inr (List.mem_append.mpr (Or.inl ?_)))
      rw [hf]
      simp
    have hi3 : parseURL url = none → invalidUrlFormatMsg ∈ (validateYouTubeUrl url).errors := by
      intro hp
      rw [herr]
      refine List.mem_append.mpr (Or.inr (List.mem_append.mpr (Or.inr ?_)))
      rw [hp]
      simp
    have hi4 : ∀ parts, parseURL url = some parts →
        allowedDomains.any (fun d => occursIn d (toLowerStr parts.host)) = false →
        domainMsg ∈ (validateYouTubeUrl url).errors := by
      intro parts hp hdom
      rw [herr]
      refine List.mem_append.mpr (Or.inr (List.mem_append.mpr (Or.inr ?_)))
      simp [hp, hdom]
    refine ⟨?_, hi2, ?_, ?_, ?_⟩
    · constructor
      · intro hmem
        rcases hsplit _ hmem with ⟨_, hlen⟩ | ⟨p, hp, _⟩ | ⟨hq, _⟩ | ⟨hq, _⟩
        · exact hlen
        · exact absurd hp.symm (protoMsg_ne_lenMsg p)
        · exact absurd hq hUI
        · exact absurd hq hUD
      · exact hi1
    · intro hfind p hmem
      rcases hsplit _ hmem with ⟨hq, _⟩ | ⟨p0, hp, hf⟩ | ⟨hq, _⟩ | ⟨hq, _⟩
      · exact protoMsg_ne_lenMsg p hq
      · rw [hfind] at hf
        exact Option.noConfusion hf
      · exact protoMsg_ne_invalidMsg p hq
      · exact protoMsg_ne_domainMsg p hq
    · constructor
      · intro hmem
        rcases hsplit _ hmem with ⟨hq, _⟩ | ⟨p, hp, _⟩ | ⟨_, hparse⟩ | ⟨hq, _⟩
        · exact absurd hq.symm hUI
        · exact absurd hp.symm (protoMsg_ne_invalidMsg p)
        · exact hparse
        · exact absurd hq.symm hDI
      · exact hi3
    · constructor
      · intro hmem
        rcases hsplit _ hmem with ⟨hq, _⟩ | ⟨p, hp, _⟩ | ⟨hq, _⟩ | ⟨_, hex⟩
        · exact absurd hq.symm hUD
        · exact absurd hp.symm (protoMsg_ne_domainMsg p)
        · exact absurd hq hDI
        · exact hex
      · intro hex
        rcases hex with ⟨parts, hparse, hdom⟩
        exact hi4 parts hparse hdom

/-- Claim C1 witness: on a canonical accepted URL, `validateInput` succeeds
and the amended accumulation properties of the later checks hold. -/
theorem facade_error_accumulation_c1_witness :
    (urlTooLongMsg ∈ (validateYouTubeUrl ("https://www.youtube.com/watch?v=dQw4w9WgXcQ".data)).errors
        ↔ maxUrlLength < ("https://www.youtube.com/watch?v=dQw4w9WgXcQ".data).length) ∧
      (∀ p, blockedProtocols.find?
          (fun q => listStartsWith q (toLowerStr ("https://www.youtube.com/watch?v=dQw4w9WgXcQ".data)))
            = some p →
        protocolMsg p ∈
          (validateYouTubeUrl ("https://www.youtube.com/watch?v=dQw4w9WgXcQ".data)).errors) ∧
      (blockedProtocols.find?
          (fun q => listStartsWith q (toLowerStr ("https://www.youtube.com/watch?v=dQw4w9WgXcQ".data)))
            = none →
        ∀ p, protocolMsg p ∉
          (validateYouTubeUrl ("https://www.youtube.com/watch?v=dQw4w9WgXcQ".data)).errors) ∧
      (invalidUrlFormatMsg ∈
          (validateYouTubeUrl ("https://www.youtube.com/watch?v=dQw4w9WgXcQ".data)).errors
        ↔ parseURL ("https://www.youtube.com/watch?v=dQw4w9WgXcQ".data) = none) ∧
      (domainMsg ∈ (validateYouTubeUrl ("https://www.youtube.com/watch?v=dQw4w9WgXcQ".data)).errors
        ↔ (∃ parts, parseURL ("https://www.youtube.com/watch?v=dQw4w9WgXcQ".data) = some parts ∧
            allowedDomains.any (fun d => occursIn d (toLowerStr parts.host)) = false)) :=
  (facade_error_accumulation_c1 ("https://www.youtube.com/watch?v=dQw4w9WgXcQ".data)).2 (by decide)
